import Mathlib

/-!
# Verification of the opensearch log-collection agent

A shallow embedding of `src/image_builds/opensearch/agent.py` (the
discovery + streaming log agent) together with proofs about its behaviour:
the container-listing helper, the two `send_log` sink branches, the
per-container log-stream worker, and the discovery supervisor loop.
-/

namespace OpensearchAgent

/-- A log document: every dict the agent builds (`doc` in `stream_logs`,
`out` in `list_containers`) has string keys and string values, so a
document is modelled as an association list (first match wins on lookup). -/
abbrev Doc := List (String × String)

/-- `doc.get(k, dflt)` on a Python dict. -/
def dGet (doc : Doc) (k dflt : String) : String :=
  match doc.find? (fun p => p.1 == k) with
  | some p => p.2
  | none => dflt

/-- `doc[k] = v` on a Python dict: overwrite the value when the key is
present, append the binding otherwise. -/
def dSet (doc : Doc) (k v : String) : Doc :=
  if doc.any (fun p => p.1 == k) then
    doc.map (fun p => if p.1 == k then (k, v) else p)
  else
    doc ++ [(k, v)]

/-- Python string slicing `s[:n]`: the first `n` code points of `s`. -/
def strTake (s : String) (n : Nat) : String := String.mk (s.data.take n)

/-- The marker the local/debug branch of `send_log` appends to an
over-long message. -/
def truncationMarker : String := "...[truncated]"

/-- The local/debug branch of `send_log` (agent.py lines 80-89).  The code
reads `msg = doc.get("message", "")`, copies the dict (`doc_print =
dict(doc)`), truncates the message on the copy only when it exceeds 300
characters, and prints the copy.  The result pair is `(the caller's doc
after the call, the doc_print handed to json.dumps/print)`; only the copy
is ever assigned to. -/
def send_log_local (doc : Doc) : Doc × Doc :=
  let msg := dGet doc "message" ""
  let doc_print := doc
  let doc_print :=
    if msg.length > 300 then
      dSet doc_print "message" (strTake msg 300 ++ truncationMarker)
    else
      doc_print
  (doc, doc_print)

/-- One element of the JSON array returned by the Podman
`containers/json` endpoint, restricted to the fields the agent reads. -/
structure ContainerJson where
  Id : Option String
  ID : Option String
  Names : Option (List String)
deriving DecidableEq, Repr

/-- Python truthiness of an optional string: `None` and `""` are falsy. -/
def truthyStr : Option String → Bool
  | some s => !s.isEmpty
  | none => false

/-- Python `a or b` restricted to optional strings. -/
def pyOr (a b : Option String) : Option String :=
  if truthyStr a then a else b

/-- `cid = c.get("Id") or c.get("ID")` (agent.py line 68). -/
def effCid (c : ContainerJson) : Option String := pyOr c.Id c.ID

/-- `names = c.get("Names") or []` (line 69): a missing key yields `[]`,
and `or []` maps an empty list to `[]`, so this is just the list with a
missing key defaulted. -/
def effNames (c : ContainerJson) : List String :=
  match c.Names with
  | some l => l
  | none => []

/-- `name = names[0] if names else (cid[:12] if cid else "unknown")`
(line 70). -/
def containerName (c : ContainerJson) : String :=
  match effNames c with
  | n :: _ => n
  | [] =>
    match effCid c with
    | some s => if s.isEmpty then "unknown" else strTake s 12
    | none => "unknown"

/-- The body of the accumulation loop of `list_containers` (lines 67-73):
compute `cid`, `names` and `name` for one container object and insert
`out[cid] = name` when `cid` is truthy. -/
def addContainer (out : Doc) (c : ContainerJson) : Doc :=
  match effCid c with
  | some cid => if cid.isEmpty then out else dSet out cid (containerName c)
  | none => out

/-- Outcome of the Podman list request: an exception somewhere in
`session.get` / `raise_for_status` / `r.json()` (any transport or decode
failure), or the decoded JSON array of container objects. -/
inductive ListResponse where
  | failure (msg : String)
  | success (cs : List ContainerJson)

/-- `list_containers` (lines 53-73): the `except` clause turns any
request/decode exception into `{}`; otherwise the id-to-name map is
accumulated from the response.  The function is total: no exception
escapes to the caller. -/
def list_containers (r : ListResponse) : Doc :=
  match r with
  | .failure _ => []
  | .success cs => cs.foldl addContainer []

/-- Modelled from the spec: "a names array (first element used, leading
path separator stripped)" — the name the spec says discovery should
produce from a names array. -/
def specStripSep (s : String) : String :=
  match s.data with
  | '/' :: rest => String.mk rest
  | _ => s

/-! ## The index-name computation of `send_log` (opensearch branch)

`index_name = f"{OPENSEARCH_INDEX_PREFIX}-{time.strftime('%Y.%m.%d')}"`
(line 96).  Python's `time.strftime` with no time argument formats
`time.localtime()`, i.e. the current epoch time shifted by the host's UTC
offset.  We model an instant as epoch seconds `t : Int` together with the
host's UTC offset `off : Int` in seconds at that instant. -/

/-- Convert a count of days since 1970-01-01 to a proleptic-Gregorian
civil date `(year, month, day)` (the standard era-based algorithm used by
C libraries, hence by `localtime`/`strftime`). -/
def civilFromDays (z0 : Int) : Int × Int × Int :=
  let z := z0 + 719468
  let era : Int := (if 0 ≤ z then z else z - 146096) / 146097
  let doe : Int := z - era * 146097
  let yoe : Int := (doe - doe / 1460 + doe / 36524 - doe / 146096) / 365
  let y : Int := yoe + era * 400
  let doy : Int := doe - (365 * yoe + yoe / 4 - yoe / 100)
  let mp : Int := (5 * doy + 2) / 153
  let d : Int := doy - (153 * mp + 2) / 5 + 1
  let m : Int := mp + (if mp < 10 then 3 else -9)
  (y + (if m ≤ 2 then 1 else 0), m, d)

/-- Zero-pad the decimal representation of a nonnegative integer to
`w` digits (as `strftime`'s numeric directives do). -/
def padNum (w : Nat) (n : Int) : String :=
  let s := toString n.toNat
  String.mk (List.replicate (w - s.length) '0') ++ s

/-- `time.strftime('%Y.%m.%d')` at epoch second `t` on a host whose UTC
offset is `off` seconds: format the local calendar date. -/
def strftime_Ymd (t off : Int) : String :=
  let days := (t + off).fdiv 86400
  let ymd := civilFromDays days
  padNum 4 ymd.1 ++ "." ++ padNum 2 ymd.2.1 ++ "." ++ padNum 2 ymd.2.2

/-- The index name computed by the opensearch branch of `send_log`
(line 96): prefix, hyphen, and the formatted current local date. -/
def index_name (pre : String) (t off : Int) : String :=
  pre ++ "-" ++ strftime_Ymd t off

/-- Modelled from the spec: "the index name is derived deterministically
as `prefix + \x7b-\x7d + currentUTCdate`" — the same computation but always on
the UTC calendar date (offset zero). -/
def spec_index_name (pre : String) (t : Int) : String :=
  pre ++ "-" ++ strftime_Ymd t 0

/-! ## Text decoding in `stream_logs`

`line = raw_line.decode("utf-8", errors="replace")` (line 121): CPython's
UTF-8 decoder with the `replace` error handler substitutes U+FFFD for
each maximal invalid subsequence and never raises, so the `except`
fallback on line 123 is unreachable.  A raw line is a list of byte
values. -/

/-- The Unicode replacement character U+FFFD. -/
def replacementChar : Char := Char.ofNat 0xFFFD

/-- Is `b` a UTF-8 continuation byte (`0x80-0xBF`)? -/
def isCont (b : Nat) : Bool := 0x80 ≤ b && b ≤ 0xBF

/-- Admissible first continuation byte after the lead byte `b` of a
three-byte sequence (rules out overlong encodings and surrogates, as
CPython's strict decoder does). -/
def cont1ok3 (b b2 : Nat) : Bool :=
  if b == 0xE0 then 0xA0 ≤ b2 && b2 ≤ 0xBF
  else if b == 0xED then 0x80 ≤ b2 && b2 ≤ 0x9F
  else isCont b2

/-- Admissible first continuation byte after the lead byte `b` of a
four-byte sequence (rules out overlong encodings and code points above
U+10FFFF). -/
def cont1ok4 (b b2 : Nat) : Bool :=
  if b == 0xF0 then 0x90 ≤ b2 && b2 ≤ 0xBF
  else if b == 0xF4 then 0x80 ≤ b2 && b2 ≤ 0x8F
  else isCont b2

/-- Worker for `utf8DecodeReplace`: structural recursion on a fuel
counter so the definition reduces in the kernel.  Every step consumes at
least one byte, so fuel equal to the byte count is always enough. -/
def utf8DecodeAux : Nat → List Nat → List Char
  | _, [] => []
  | 0, _ :: _ => []
  | fuel + 1, b :: bs =>
    if b < 0x80 then Char.ofNat b :: utf8DecodeAux fuel bs
    else if b < 0xC2 then replacementChar :: utf8DecodeAux fuel bs
    else if b < 0xE0 then
      match bs with
      | b2 :: bs2 =>
        if isCont b2 then
          Char.ofNat ((b - 0xC0) * 64 + (b2 - 0x80)) :: utf8DecodeAux fuel bs2
        else replacementChar :: utf8DecodeAux fuel bs
      | [] => [replacementChar]
    else if b < 0xF0 then
      match bs with
      | b2 :: bs2 =>
        if cont1ok3 b b2 then
          match bs2 with
          | b3 :: bs3 =>
            if isCont b3 then
              Char.ofNat ((b - 0xE0) * 4096 + (b2 - 0x80) * 64 + (b3 - 0x80)) ::
                utf8DecodeAux fuel bs3
            else replacementChar :: utf8DecodeAux fuel bs2
          | [] => [replacementChar]
        else replacementChar :: utf8DecodeAux fuel bs
      | [] => [replacementChar]
    else if b < 0xF5 then
      match bs with
      | b2 :: bs2 =>
        if cont1ok4 b b2 then
          match bs2 with
          | b3 :: bs3 =>
            if isCont b3 then
              match bs3 with
              | b4 :: bs4 =>
                if isCont b4 then
                  Char.ofNat ((b - 0xF0) * 262144 + (b2 - 0x80) * 4096 +
                      (b3 - 0x80) * 64 + (b4 - 0x80)) :: utf8DecodeAux fuel bs4
                else replacementChar :: utf8DecodeAux fuel bs3
              | [] => [replacementChar]
            else replacementChar :: utf8DecodeAux fuel bs2
          | [] => [replacementChar]
        else replacementChar :: utf8DecodeAux fuel bs
      | [] => [replacementChar]
    else replacementChar :: utf8DecodeAux fuel bs

/-- `bytes.decode("utf-8", errors="replace")`: decode a byte sequence,
emitting one U+FFFD per maximal invalid subsequence.  Total, so the
decode never fails and never drops a line. -/
def utf8DecodeReplace (raw : List Nat) : List Char :=
  utf8DecodeAux raw.length raw

/-- The decoded text of a raw line, as a `String`. -/
def decodeLine (raw : List Nat) : String :=
  String.mk (utf8DecodeReplace raw)

/-! ## The stream worker: `stream_logs` -/

/-- The sink mode (`AGENT_MODE`): `"opensearch"` or `"local"`. -/
inductive AgentMode where
  | opensearch
  | localMode
deriving DecidableEq, Repr

/-- One line delivered by `r.iter_lines()`: the raw bytes, the
`time.strftime` value at the instant the line is processed, and whether
the sink write for this record fails (an `opensearch_client.index` error
in opensearch mode, a standard-output write error of `print` in local
mode). -/
structure LineEvent where
  raw : List Nat
  ts : String
  sinkErr : Option String
deriving DecidableEq, Repr

/-- The behaviour of one log-stream connection: whether
`session.get`/`raise_for_status` succeed, the lines the stream then
yields, and an optional error raised by the iteration after those lines
(`none` means the stream closed with a clean EOF). -/
structure StreamInput where
  openOk : Bool
  events : List LineEvent
  readErr : Option String
deriving DecidableEq, Repr

/-- Exception behaviour of `send_log` (lines 76-100) as seen by its
caller.  In opensearch mode both the uninitialised-client early return
and the `try ... except` around `opensearch_client.index` (lines 97-100)
swallow a write failure, so the call always returns.  In local mode the
`print` call (line 88) is not wrapped in any handler, so a write failure
on standard output propagates to the caller. -/
def send_log_raises (mode : AgentMode) (sinkErr : Option String) : Option String :=
  match mode with
  | .opensearch => none
  | .localMode => sinkErr

/-- The document built for one decoded line (lines 125-131). -/
def mkDoc (ts msg cid name node : String) : Doc :=
  [("@timestamp", ts), ("message", msg), ("container_id", cid),
   ("container_name", name), ("node", node)]

/-- The `for raw_line in r.iter_lines()` loop of `stream_logs` (lines
117-133), processing the stream's lines in order: an empty line is
skipped (`continue`); a non-empty line is decoded, packed into a
document and handed to `send_log`.  Returns the documents handed to
`send_log` together with the exception, if any, that escaped the loop
(only possible in local mode, via `print`). -/
def streamLoop (mode : AgentMode) (cid name node : String) :
    List LineEvent → List Doc × Option String
  | [] => ([], none)
  | ev :: evs =>
    if ev.raw.isEmpty then streamLoop mode cid name node evs
    else
      let doc := mkDoc ev.ts (decodeLine ev.raw) cid name node
      match send_log_raises mode ev.sinkErr with
      | none =>
        let rest := streamLoop mode cid name node evs
        (doc :: rest.1, rest.2)
      | some e => ([doc], some e)

/-- `stream_logs` (lines 103-137): open the stream, process its lines,
and catch any exception — an open failure, an error escaping `send_log`,
or a mid-read error of the iteration — in the `except` on line 134,
which only logs it.  Control then always falls through to the final
"Log stream ended" log line and the thread terminates (state `Ended`).
The value is the list of documents handed to `send_log`; totality of the
function is the fact that no exception propagates out of the worker. -/
def stream_logs (mode : AgentMode) (cid name node : String)
    (input : StreamInput) : List Doc :=
  if input.openOk then (streamLoop mode cid name node input.events).1
  else []

/-! ## The discovery supervisor: `main` -/

/-- One log-follow thread spawned by `main`: its `threading.Thread`
identity (a token), the container id and name it was started with, and
whether `is_alive()` currently holds.  A thread's `alive` flag only ever
moves from `true` to `false`. -/
structure WorkerThread where
  token : Nat
  cid : String
  cname : String
  alive : Bool
deriving DecidableEq, Repr

/-- The supervisor state of `main` (lines 148-175): the
`active_streams` set and the `threads` dict, together with bookkeeping
of every thread ever spawned (newest first) and a fresh-token counter. -/
structure AgentState where
  nextToken : Nat
  spawned : List WorkerThread
  active_streams : List String
  threads : List (String × Nat)
deriving DecidableEq, Repr

/-- The state at the top of `main`: both collections empty. -/
def initState : AgentState := ⟨0, [], [], []⟩

/-- Threads end on their own (their stream closes or errors), not by
supervisor action: mark the given thread tokens as no longer alive.  A
thread never comes back to life. -/
def killThreads (ds : List Nat) (s : AgentState) : AgentState :=
  { s with
    spawned := s.spawned.map
      (fun w => if w.token ∈ ds then { w with alive := false } else w) }

/-- `t.is_alive()` for the thread with the given token. -/
def isAliveTok (ws : List WorkerThread) (tok : Nat) : Bool :=
  ws.any (fun w => w.token == tok && w.alive)

/-- The body of the start loop (lines 155-166): when the container id
has no entry in `active_streams`, start a thread for it, add the id to
`active_streams` and record the handle in `threads`; otherwise do
nothing. -/
def startOne (s : AgentState) (c : String × String) : AgentState :=
  if c.1 ∈ s.active_streams then s
  else
    { nextToken := s.nextToken + 1,
      spawned := ⟨s.nextToken, c.1, c.2, true⟩ :: s.spawned,
      active_streams := c.1 :: s.active_streams,
      threads := (c.1, s.nextToken) :: s.threads }

/-- `for cid, name in containers.items(): ...` (lines 155-166). -/
def startPhase (cs : List (String × String)) (s : AgentState) : AgentState :=
  cs.foldl startOne s

/-- The `dead` list of the clean-up sweep (line 169): the ids whose
thread is no longer alive. -/
def sweepDead (s : AgentState) : List String :=
  (s.threads.filter (fun p => !isAliveTok s.spawned p.2)).map Prod.fst

/-- The clean-up sweep (lines 168-173): collect the ids whose thread is
no longer alive, then `active_streams.discard` and `threads.pop` each of
them.  This is the only place entries are removed. -/
def sweep (s : AgentState) : AgentState :=
  { s with
    active_streams := s.active_streams.filter (fun c => !(sweepDead s).contains c),
    threads := s.threads.filter (fun p => !(sweepDead s).contains p.1) }

/-- One iteration of the `while True` loop (lines 151-175), with the
scheduler's thread deaths made explicit: `dPoll` are the threads that
end while the supervisor calls `list_containers`, `dStart` those that
end during the start loop (before the sweep reads `is_alive`), and
`dSleep` those that end during the final `time.sleep`. -/
def step (dPoll : List Nat) (cs : List (String × String)) (dStart dSleep : List Nat)
    (s : AgentState) : AgentState :=
  killThreads dSleep (sweep (killThreads dStart (startPhase cs (killThreads dPoll s))))

/-- The states the discovery loop can reach from startup. -/
inductive Reachable : AgentState → Prop where
  | init : Reachable initState
  | next (dPoll : List Nat) (cs : List (String × String)) (dStart dSleep : List Nat)
      {s : AgentState} : Reachable s → Reachable (step dPoll cs dStart dSleep s)

/-- A concrete two-poll run of the discovery loop: poll 1 sees container
"abc123", poll 2 sees "abc123" and "def456", no thread ends. -/
def pollTwiceState : AgentState :=
  step [] [("abc123", "web"), ("def456", "db")] [] []
    (step [] [("abc123", "web")] [] [] initState)

/-- A concrete run in which the single worker's stream ends during the
sleep after the first iteration: its entry is still present but its
thread is no longer alive. -/
def deadState : AgentState :=
  step [] [("c1", "n1")] [] [0] initState

/-! ## The supervisor invariant -/

/-- Structural invariant of the supervisor state, maintained by every
iteration of the discovery loop. -/
structure Inv (s : AgentState) : Prop where
  tokenBound : ∀ w ∈ s.spawned, w.token < s.nextToken
  tokensNodup : (s.spawned.map WorkerThread.token).Nodup
  keysNodup : (s.threads.map Prod.fst).Nodup
  activeIffKey : ∀ c, c ∈ s.active_streams ↔ c ∈ s.threads.map Prod.fst
  threadsValid : ∀ p ∈ s.threads, ∃ w ∈ s.spawned, w.token = p.2 ∧ w.cid = p.1
  aliveTracked : ∀ w ∈ s.spawned, w.alive = true → (w.cid, w.token) ∈ s.threads

theorem inv_initState : Inv initState := by
  constructor <;> simp [initState]

theorem isAliveTok_of_mem {ws : List WorkerThread} {w : WorkerThread}
    (hw : w ∈ ws) (ha : w.alive = true) : isAliveTok ws w.token = true := by
  simp only [isAliveTok, List.any_eq_true]
  exact ⟨w, hw, by simp [ha]⟩

theorem keys_inj {l : List (String × Nat)} (h : (l.map Prod.fst).Nodup)
    {c : String} {t1 t2 : Nat} (h1 : (c, t1) ∈ l) (h2 : (c, t2) ∈ l) : t1 = t2 :=
  congrArg Prod.snd (List.inj_on_of_nodup_map h h1 h2 rfl)

theorem tokens_inj {ws : List WorkerThread}
    (h : (ws.map WorkerThread.token).Nodup) {w1 w2 : WorkerThread}
    (h1 : w1 ∈ ws) (h2 : w2 ∈ ws) (ht : w1.token = w2.token) : w1 = w2 :=
  List.inj_on_of_nodup_map h h1 h2 ht

theorem killThreads_spawned_tokens (ds : List Nat) (s : AgentState) :
    (killThreads ds s).spawned.map WorkerThread.token =
      s.spawned.map WorkerThread.token := by
  simp only [killThreads, List.map_map]
  refine List.map_congr_left fun w _ => ?_
  by_cases h : w.token ∈ ds <;> simp [h]

theorem inv_killThreads (ds : List Nat) {s : AgentState} (h : Inv s) :
    Inv (killThreads ds s) := by
  refine ⟨?_, ?_, h.keysNodup, h.activeIffKey, ?_, ?_⟩
  · intro w hw
    simp only [killThreads, List.mem_map] at hw
    obtain ⟨w0, hw0, heq⟩ := hw
    subst heq
    by_cases hd : w0.token ∈ ds <;> simpa [hd] using h.tokenBound w0 hw0
  · rw [killThreads_spawned_tokens]
    exact h.tokensNodup
  · intro p hp
    obtain ⟨w, hw, hwt, hwc⟩ := h.threadsValid p hp
    refine ⟨if w.token ∈ ds then { w with alive := false } else w, ?_, ?_, ?_⟩
    · simp only [killThreads, List.mem_map]
      exact ⟨w, hw, rfl⟩
    · by_cases hd : w.token ∈ ds <;> simpa [hd] using hwt
    · by_cases hd : w.token ∈ ds <;> simpa [hd] using hwc
  · intro w hw ha
    simp only [killThreads, List.mem_map] at hw
    obtain ⟨w0, hw0, heq⟩ := hw
    subst heq
    by_cases hd : w0.token ∈ ds
    · simp [hd] at ha
    · simpa [hd] using h.aliveTracked w0 hw0 (by simpa [hd] using ha)

theorem inv_startOne {s : AgentState} (h : Inv s) (c : String × String) :
    Inv (startOne s c) := by
  rw [startOne]
  by_cases hc : c.1 ∈ s.active_streams
  · simpa [hc] using h
  · have hkey : c.1 ∉ s.threads.map Prod.fst := fun hk => hc ((h.activeIffKey c.1).2 hk)
    simp only [hc, if_false]
    refine ⟨?_, ?_, ?_, ?_, ?_, ?_⟩
    · intro w hw
      rcases List.mem_cons.1 hw with heq | hmem
      · subst heq; simp
      · exact Nat.lt_succ_of_lt (h.tokenBound w hmem)
    · refine List.nodup_cons.2 ⟨?_, h.tokensNodup⟩
      simp only [List.mem_map, not_exists, not_and]
      intro w hw
      exact Nat.ne_of_lt (h.tokenBound w hw)
    · exact List.nodup_cons.2 ⟨hkey, h.keysNodup⟩
    · intro c'
      simp only [List.map_cons, List.mem_cons]
      constructor
      · rintro (rfl | hmem)
        · exact Or.inl rfl
        · exact Or.inr ((h.activeIffKey c').1 hmem)
      · rintro (rfl | hmem)
        · exact Or.inl rfl
        · exact Or.inr ((h.activeIffKey c').2 hmem)
    · intro p hp
      rcases List.mem_cons.1 hp with heq | hmem
      · subst heq
        exact ⟨⟨s.nextToken, c.1, c.2, true⟩, List.mem_cons_self _ _, rfl, rfl⟩
      · obtain ⟨w, hw, hwt, hwc⟩ := h.threadsValid p hmem
        exact ⟨w, List.mem_cons_of_mem _ hw, hwt, hwc⟩
    · intro w hw ha
      rcases List.mem_cons.1 hw with heq | hmem
      · subst heq
        exact List.mem_cons_self _ _
      · exact List.mem_cons_of_mem _ (h.aliveTracked w hmem ha)

theorem inv_startPhase (cs : List (String × String)) {s : AgentState} (h : Inv s) :
    Inv (startPhase cs s) := by
  induction cs generalizing s with
  | nil => simpa [startPhase] using h
  | cons c cs ih =>
    simpa [startPhase, List.foldl_cons] using ih (inv_startOne h c)

/-- Membership in the `dead` list computed by the sweep. -/
theorem mem_sweepDead {s : AgentState} {c : String} :
    c ∈ sweepDead s ↔
      ∃ t, (c, t) ∈ s.threads ∧ isAliveTok s.spawned t = false := by
  simp only [sweepDead, List.mem_map, List.mem_filter, Bool.not_eq_true']
  constructor
  · rintro ⟨⟨c', t⟩, ⟨hmem, hdead⟩, rfl⟩
    exact ⟨t, hmem, hdead⟩
  · rintro ⟨t, hmem, hdead⟩
    exact ⟨(c, t), ⟨hmem, hdead⟩, rfl⟩

theorem inv_sweep {s : AgentState} (h : Inv s) : Inv (sweep s) := by
  refine ⟨h.tokenBound, h.tokensNodup, ?_, ?_, ?_, ?_⟩
  · exact ((List.filter_sublist _).map Prod.fst).nodup h.keysNodup
  · intro c
    simp only [sweep, List.mem_filter, List.mem_map, List.elem_eq_mem,
      Bool.not_eq_eq_eq_not, Bool.not_true, decide_eq_false_iff_not]
    constructor
    · rintro ⟨hmem, hnd⟩
      obtain ⟨p, hp, hpc⟩ := List.mem_map.1 ((h.activeIffKey c).1 hmem)
      refine ⟨p, ⟨hp, ?_⟩, hpc⟩
      rw [hpc]; exact hnd
    · rintro ⟨p, ⟨hp, hnd⟩, hpc⟩
      subst hpc
      exact ⟨(h.activeIffKey p.1).2 (List.mem_map_of_mem _ hp), hnd⟩
  · intro p hp
    exact h.threadsValid p (List.mem_of_mem_filter hp)
  · intro w hw ha
    have hw' : w ∈ s.spawned := hw
    simp only [sweep, List.mem_filter, List.elem_eq_mem,
      Bool.not_eq_eq_eq_not, Bool.not_true, decide_eq_false_iff_not]
    refine ⟨h.aliveTracked w hw' ha, ?_⟩
    intro hdeadmem
    obtain ⟨t, htmem, htdead⟩ := mem_sweepDead.1 hdeadmem
    have : t = w.token := keys_inj h.keysNodup htmem (h.aliveTracked w hw' ha)
    subst this
    rw [isAliveTok_of_mem hw' ha] at htdead
    exact absurd htdead (by simp)

theorem inv_step (dPoll : List Nat) (cs : List (String × String))
    (dStart dSleep : List Nat) {s : AgentState} (h : Inv s) :
    Inv (step dPoll cs dStart dSleep s) :=
  inv_killThreads dSleep (inv_sweep (inv_killThreads dStart
    (inv_startPhase cs (inv_killThreads dPoll h))))

theorem inv_of_reachable {s : AgentState} (h : Reachable s) : Inv s := by
  induction h with
  | init => exact inv_initState
  | next dPoll cs dStart dSleep _ ih => exact inv_step dPoll cs dStart dSleep ih

/-! ## Lemmas about the dict model -/

theorem find?_append_of_some {l1 l2 : Doc} {p : String × String → Bool}
    {q : String × String} (h : l1.find? p = some q) :
    (l1 ++ l2).find? p = some q := by
  induction l1 with
  | nil => cases h
  | cons a l ih =>
    by_cases ha : p a = true
    · rw [List.find?_cons_of_pos _ ha] at h
      rw [List.cons_append, List.find?_cons_of_pos _ ha, h]
    · rw [List.find?_cons_of_neg _ ha] at h
      rw [List.cons_append, List.find?_cons_of_neg _ ha, ih h]

theorem find?_append_of_none {l1 l2 : Doc} {p : String × String → Bool}
    (h : l1.find? p = none) : (l1 ++ l2).find? p = l2.find? p := by
  induction l1 with
  | nil => rfl
  | cons a l ih =>
    by_cases ha : p a = true
    · rw [List.find?_cons_of_pos _ ha] at h; cases h
    · rw [List.find?_cons_of_neg _ ha] at h
      rw [List.cons_append, List.find?_cons_of_neg _ ha, ih h]

theorem find?_map_dSet_same {ps : Doc} {k v : String}
    (h : ps.any (fun p => p.1 == k) = true) :
    (ps.map (fun p => if p.1 == k then (k, v) else p)).find? (fun q => q.1 == k) =
      some (k, v) := by
  induction ps with
  | nil => cases h
  | cons p ps ih =>
    by_cases hp : (p.1 == k) = true
    · simp only [List.map_cons]
      rw [if_pos hp]
      exact List.find?_cons_of_pos _ (by simp)
    · have hpf : (p.1 == k) = false := by simpa using hp
      have hps : ps.any (fun p => p.1 == k) = true := by
        rw [List.any_cons, hpf, Bool.false_or] at h
        exact h
      simp only [List.map_cons]
      rw [if_neg hp, List.find?_cons_of_neg _ (by simp [hpf]), ih hps]

theorem dGet_dSet_same (doc : Doc) (k v dflt : String) :
    dGet (dSet doc k v) k dflt = v := by
  rw [dSet]
  by_cases h : doc.any (fun p => p.1 == k) = true
  · rw [if_pos h, dGet, find?_map_dSet_same h]
  · rw [if_neg h, dGet]
    have hnone : doc.find? (fun q => q.1 == k) = none := by
      rw [List.find?_eq_none]
      intro p hp hpk
      exact h (List.any_eq_true.2 ⟨p, hp, hpk⟩)
    rw [find?_append_of_none hnone]
    simp [List.find?]

theorem find?_map_dSet_other {ps : Doc} {k k' v : String} (hne : k' ≠ k) :
    (ps.map (fun p => if p.1 == k then (k, v) else p)).find? (fun q => q.1 == k') =
      ps.find? (fun q => q.1 == k') := by
  induction ps with
  | nil => rfl
  | cons p ps ih =>
    by_cases hp : (p.1 == k) = true
    · have hpk : p.1 = k := by simpa using hp
      have h1 : ((k, v).1 == k') = false := by
        simpa using fun h => hne h.symm
      have h2 : (p.1 == k') = false := by
        rw [hpk]; simpa using fun h => hne h.symm
      simp only [List.map_cons]
      rw [if_pos hp, List.find?_cons_of_neg _ (by simp [h1]),
        List.find?_cons_of_neg _ (by simp [h2])]
      exact ih
    · simp only [List.map_cons]
      rw [if_neg hp]
      by_cases hq : (p.1 == k') = true
      · rw [@List.find?_cons_of_pos _ (fun q => q.1 == k') p _ hq,
          @List.find?_cons_of_pos _ (fun q => q.1 == k') p _ hq]
      · rw [@List.find?_cons_of_neg _ (fun q => q.1 == k') p _ hq,
          @List.find?_cons_of_neg _ (fun q => q.1 == k') p _ hq]
        exact ih

theorem dGet_dSet_other (doc : Doc) {k k' : String} (hne : k' ≠ k) (v dflt : String) :
    dGet (dSet doc k v) k' dflt = dGet doc k' dflt := by
  rw [dSet]
  by_cases h : doc.any (fun p => p.1 == k) = true
  · rw [if_pos h, dGet, find?_map_dSet_other hne, dGet]
  · rw [if_neg h, dGet, dGet]
    by_cases hf : doc.find? (fun q => q.1 == k') = none
    · rw [find?_append_of_none hf, hf]
      have : ((k, v).1 == k') = false := by simpa using fun hkk => hne hkk.symm
      simp [List.find?, this]
    · obtain ⟨q, hq⟩ := Option.ne_none_iff_exists'.1 hf
      rw [hq, find?_append_of_some hq]

/-! ## Lemmas about container-list keys -/

theorem keys_dSet_mem {out : Doc} {k v k' : String} :
    k' ∈ (dSet out k v).map Prod.fst ↔ k' ∈ out.map Prod.fst ∨ k' = k := by
  rw [dSet]
  by_cases h : out.any (fun p => p.1 == k) = true
  · rw [if_pos h]
    have hmap : (out.map (fun p => if p.1 == k then (k, v) else p)).map Prod.fst =
        out.map Prod.fst := by
      rw [List.map_map]
      refine List.map_congr_left fun p _ => ?_
      by_cases hp : (p.1 == k) = true
      · simp only [Function.comp_apply]
        rw [if_pos hp]
        exact (by simpa using hp : p.1 = k).symm
      · simp only [Function.comp_apply]
        rw [if_neg hp]
    rw [hmap]
    obtain ⟨p, hp, hpk⟩ := List.any_eq_true.1 h
    have hkmem : k ∈ out.map Prod.fst :=
      List.mem_map.2 ⟨p, hp, by simpa using hpk⟩
    constructor
    · exact Or.inl
    · rintro (h' | rfl)
      · exact h'
      · exact hkmem
  · rw [if_neg h, List.map_append]
    simp [List.mem_append]

theorem keys_addContainer {out : Doc} {c : ContainerJson} {k : String} :
    k ∈ (addContainer out c).map Prod.fst ↔
      k ∈ out.map Prod.fst ∨ (k ≠ "" ∧ effCid c = some k) := by
  cases hc : effCid c with
  | none => simp [addContainer, hc]
  | some cid =>
    simp only [addContainer, hc]
    by_cases hcid : cid.isEmpty = true
    · rw [if_pos hcid]
      have hce : cid = "" := (String.isEmpty_iff cid).1 hcid
      subst hce
      constructor
      · exact Or.inl
      · rintro (h' | ⟨hne, heq⟩)
        · exact h'
        · exact absurd (Option.some_injective _ heq).symm hne
    · rw [if_neg hcid, keys_dSet_mem]
      have hcne : cid ≠ "" := fun he => hcid (by rw [he]; rfl)
      constructor
      · rintro (h' | rfl)
        · exact Or.inl h'
        · exact Or.inr ⟨hcne, rfl⟩
      · rintro (h' | ⟨hne, heq⟩)
        · exact Or.inl h'
        · exact Or.inr (Option.some_injective _ heq).symm

theorem keys_list_containers (cs : List ContainerJson) (out : Doc) (k : String) :
    k ∈ (cs.foldl addContainer out).map Prod.fst ↔
      k ∈ out.map Prod.fst ∨ (k ≠ "" ∧ ∃ c ∈ cs, effCid c = some k) := by
  induction cs generalizing out with
  | nil => simp
  | cons c cs ih =>
    rw [List.foldl_cons, ih, keys_addContainer]
    constructor
    · rintro ((h | ⟨hne, heq⟩) | ⟨hne, c', hc', heq⟩)
      · exact Or.inl h
      · exact Or.inr ⟨hne, c, List.mem_cons_self _ _, heq⟩
      · exact Or.inr ⟨hne, c', List.mem_cons_of_mem _ hc', heq⟩
    · rintro (h | ⟨hne, c', hc', heq⟩)
      · exact Or.inl (Or.inl h)
      · rcases List.mem_cons.1 hc' with rfl | hmem
        · exact Or.inl (Or.inr ⟨hne, heq⟩)
        · exact Or.inr ⟨hne, c', hmem, heq⟩

theorem startPhase_spawned_mem (polled : List (String × String)) :
    ∀ (s : AgentState) (w : WorkerThread), w ∈ (startPhase polled s).spawned →
      w ∈ s.spawned ∨ w.cid ∈ polled.map Prod.fst := by
  induction polled with
  | nil => exact fun s w hw => Or.inl hw
  | cons c cs ih =>
    intro s w hw
    rw [startPhase, List.foldl_cons] at hw
    rcases ih (startOne s c) w hw with h | h
    · rw [startOne] at h
      by_cases hc : c.1 ∈ s.active_streams
      · rw [if_pos hc] at h
        exact Or.inl h
      · rw [if_neg hc] at h
        rcases List.mem_cons.1 h with rfl | hmem
        · exact Or.inr (by simp)
        · exact Or.inl hmem
    · rw [List.map_cons]
      exact Or.inr (List.mem_cons_of_mem _ h)

/-! ## Claim theorems -/

/-- C4: for every record accepted by the debug sink, a message longer
than 300 characters is printed as exactly its first 300 characters
followed by the truncation marker "...[truncated]", while a message of
at most 300 characters leaves the printed record completely unchanged. -/
theorem debug_sink_truncation (doc : Doc) :
    (300 < (dGet doc "message" "").length →
      dGet (send_log_local doc).2 "message" "" =
        strTake (dGet doc "message" "") 300 ++ truncationMarker) ∧
    ((dGet doc "message" "").length ≤ 300 → (send_log_local doc).2 = doc) := by
  constructor
  · intro h
    simp only [send_log_local]
    rw [if_pos h, dGet_dSet_same]
  · intro h
    simp only [send_log_local]
    rw [if_neg (by omega)]

set_option maxRecDepth 2000 in
/-- Witness for C4: a message of 310 'a' characters is printed as 300
'a' characters followed by the truncation marker. -/
theorem debug_sink_truncation_witness :
    300 < (dGet [("message", String.mk (List.replicate 310 'a'))] "message" "").length ∧
    dGet (send_log_local [("message", String.mk (List.replicate 310 'a'))]).2 "message" "" =
      String.mk (List.replicate 300 'a') ++ truncationMarker := by
  refine ⟨by decide, ?_⟩
  have h := (debug_sink_truncation [("message", String.mk (List.replicate 310 'a'))]).1
    (by decide)
  rw [h]
  decide

/-- C10: the debug branch of `send_log` leaves the caller's record
unmodified (the truncation happens on the `dict(doc)` copy only), and
every field of the printed copy other than "message" equals the
corresponding field of the input record. -/
theorem debug_sink_frame (doc : Doc) (k dflt : String) (hk : k ≠ "message") :
    (send_log_local doc).1 = doc ∧
    dGet (send_log_local doc).2 k dflt = dGet doc k dflt := by
  refine ⟨rfl, ?_⟩
  simp only [send_log_local]
  by_cases h : 300 < (dGet doc "message" "").length
  · rw [if_pos h, dGet_dSet_other doc hk]
  · rw [if_neg h]

set_option maxRecDepth 2000 in
/-- Witness for C10: on a record with an over-long message and a "node"
field, the caller's record is returned unchanged and the printed copy
keeps "node" intact. -/
theorem debug_sink_frame_witness :
    (send_log_local [("message", String.mk (List.replicate 310 'a')), ("node", "n1")]).1 =
      [("message", String.mk (List.replicate 310 'a')), ("node", "n1")] ∧
    dGet (send_log_local
      [("message", String.mk (List.replicate 310 'a')), ("node", "n1")]).2 "node" "" =
      "n1" := by
  have h := debug_sink_frame
    [("message", String.mk (List.replicate 310 'a')), ("node", "n1")] "node" ""
    (by decide)
  refine ⟨h.1, ?_⟩
  rw [h.2]
  decide

/-- C2 counterexample: discovery does not strip the leading path
separator — for a response with one container of id "abc123" and names
["/web"], the recorded name is "/web", not the stripped "web" the claim
requires. -/
theorem container_name_keeps_separator :
    dGet (list_containers (.success [⟨some "abc123", none, some ["/web"]⟩])) "abc123" "" =
      "/web" ∧
    specStripSep "/web" = "web" ∧
    dGet (list_containers (.success [⟨some "abc123", none, some ["/web"]⟩])) "abc123" "" ≠
      specStripSep "/web" :=
  ⟨by decide, by decide, by decide⟩

/-- C2 amended: the recorded name is the first element of the names
array taken verbatim (no separator stripping); when the names array is
missing or empty, the name falls back to the first 12 characters of the
container id. -/
theorem container_name_first_element (out : Doc) (c : ContainerJson)
    (cid : String) (hc : effCid c = some cid) (hne : cid ≠ "") :
    (∀ n ns, effNames c = n :: ns → dGet (addContainer out c) cid "" = n) ∧
    (effNames c = [] → dGet (addContainer out c) cid "" = strTake cid 12) := by
  have hie : cid.isEmpty = false := by
    cases hcid : cid.isEmpty
    · rfl
    · exact absurd ((String.isEmpty_iff cid).1 hcid) hne
  have hadd : addContainer out c = dSet out cid (containerName c) := by
    simp only [addContainer, hc]
    rw [if_neg (by simp [hie])]
  constructor
  · intro n ns hn
    rw [hadd, dGet_dSet_same]
    simp only [containerName]
    rw [hn]
  · intro hn
    rw [hadd, dGet_dSet_same]
    simp only [containerName]
    rw [hn, hc]
    simp [hie]

/-- Witness for C2 amended: a names array ["/web", "alt"] records
"/web" verbatim; a container with no names and a 15-character id records
the first 12 characters of the id. -/
theorem container_name_first_element_witness :
    dGet (addContainer [] ⟨some "abc123", none, some ["/web", "alt"]⟩) "abc123" "" =
      "/web" ∧
    dGet (addContainer [] ⟨some "abcdef123456789", none, none⟩) "abcdef123456789" "" =
      "abcdef123456" := by
  constructor
  · exact (container_name_first_element [] ⟨some "abc123", none, some ["/web", "alt"]⟩
      "abc123" (by decide) (by decide)).1 "/web" ["alt"] rfl
  · have h := (container_name_first_element [] ⟨some "abcdef123456789", none, none⟩
      "abcdef123456789" (by decide) (by decide)).2 rfl
    rw [h]
    decide

/-- C9: a container whose effective identifier (`Id`, else `ID`) is
missing or empty is omitted from `list_containers` entirely — it
contributes nothing to the map — and since the start phase spawns
workers only for polled ids, no worker is ever started for it; every
container with a truthy identifier appears keyed by that id. -/
theorem falsy_id_omitted (cs : List ContainerJson) (cid : String) :
    (∀ (out : Doc) (c : ContainerJson), effCid c = none ∨ effCid c = some "" →
      addContainer out c = out) ∧
    (cid ∈ (list_containers (.success cs)).map Prod.fst ↔
      cid ≠ "" ∧ ∃ c ∈ cs, effCid c = some cid) ∧
    (∀ (s : AgentState) (polled : List (String × String)) (w : WorkerThread),
      w ∈ (startPhase polled s).spawned → w ∈ s.spawned ∨ w.cid ∈ polled.map Prod.fst) := by
  refine ⟨?_, ?_, fun s polled w hw => startPhase_spawned_mem polled s w hw⟩
  · rintro out c (h | h)
    · simp [addContainer, h]
    · simp only [addContainer, h]
      rw [if_pos (by decide)]
  · have : list_containers (.success cs) = cs.foldl addContainer [] := rfl
    rw [this, keys_list_containers]
    simp

/-- Witness for C9: a container with `Id` absent and `ID` empty leaves
the accumulator untouched. -/
theorem falsy_id_omitted_witness :
    addContainer [("a", "b")] ⟨none, some "", some ["x"]⟩ = [("a", "b")] :=
  (falsy_id_omitted [] "").1 [("a", "b")] ⟨none, some "", some ["x"]⟩ (Or.inr (by decide))

/-- C5: a transport or decode failure makes `list_containers` return
the empty map — the function is total, so nothing is raised to the
discovery loop — and a loop iteration whose list call failed is
state-for-state identical to one that observed no containers: the
iteration completes its start phase and sweep and proceeds to the
sleep. -/
theorem list_failure_is_empty_cycle (e : String) (s : AgentState)
    (dPoll dStart dSleep : List Nat) :
    list_containers (.failure e) = [] ∧
    step dPoll (list_containers (.failure e)) dStart dSleep s =
      step dPoll (list_containers (.success [])) dStart dSleep s :=
  ⟨rfl, rfl⟩

/-- C1 counterexample: `time.strftime` formats the local date, not the
UTC date.  At epoch second 1709841600 (2024-03-07T20:00:00 UTC) on a
host with UTC offset +08:00 (28800 s), the opensearch branch computes
index "podman-logs-2024.03.08", while the prefix-plus-UTC-date name of
the claim is "podman-logs-2024.03.07". -/
theorem index_name_not_utc :
    index_name "podman-logs" 1709841600 28800 = "podman-logs-2024.03.08" ∧
    spec_index_name "podman-logs" 1709841600 = "podman-logs-2024.03.07" ∧
    index_name "podman-logs" 1709841600 28800 ≠
      spec_index_name "podman-logs" 1709841600 :=
  ⟨by decide, by decide, by decide⟩

/-- C1 amended: the index name is the prefix, a hyphen, and the current
local calendar date formatted YYYY.MM.DD; it depends only on the prefix
and the local calendar day of the write, and it agrees with the spec's
UTC-date name whenever the host's UTC offset is zero. -/
theorem index_name_local_date (pre : String) (t t' off off' : Int)
    (hday : (t + off).fdiv 86400 = (t' + off').fdiv 86400) :
    index_name pre t off = index_name pre t' off' ∧
    (off = 0 → index_name pre t off = spec_index_name pre t) := by
  constructor
  · rw [index_name, index_name, strftime_Ymd, strftime_Ymd, hday]
  · intro h0
    rw [index_name, spec_index_name, h0]

/-- Witness for C1 amended: two instants of 2024-03-07 (midnight and
20:00 UTC) with offset zero give the same index name, which is the
spec's "podman-logs-2024.03.07". -/
theorem index_name_local_date_witness :
    index_name "podman-logs" 1709769600 0 = index_name "podman-logs" 1709841600 0 ∧
    index_name "podman-logs" 1709769600 0 = spec_index_name "podman-logs" 1709769600 ∧
    index_name "podman-logs" 1709769600 0 = "podman-logs-2024.03.07" := by
  have h := index_name_local_date "podman-logs" 1709769600 1709841600 0 0 (by decide)
  exact ⟨h.1, h.2 rfl, by decide⟩

/-- When no `send_log` call raises (always in opensearch mode, and in
local mode when no sink write fails), the stream loop processes every
line: empty lines are skipped and each non-empty line yields exactly one
document, in stream order. -/
theorem streamLoop_no_failures (mode : AgentMode) (cid name node : String)
    (evs : List LineEvent)
    (h : mode = .opensearch ∨ ∀ ev ∈ evs, ev.sinkErr = none) :
    streamLoop mode cid name node evs =
      ((evs.filter (fun ev => !ev.raw.isEmpty)).map
        (fun ev => mkDoc ev.ts (decodeLine ev.raw) cid name node), none) := by
  induction evs with
  | nil => rfl
  | cons ev evs ih =>
    have htail : mode = .opensearch ∨ ∀ e ∈ evs, e.sinkErr = none := by
      rcases h with h | h
      · exact Or.inl h
      · exact Or.inr fun e he => h e (List.mem_cons_of_mem _ he)
    have hev : send_log_raises mode ev.sinkErr = none := by
      rcases h with h | h
      · subst h; rfl
      · rw [h ev (List.mem_cons_self _ _)]
        cases mode <;> rfl
    by_cases hraw : ev.raw.isEmpty = true
    · simp only [streamLoop]
      rw [if_pos hraw, ih htail, List.filter_cons]
      simp [hraw]
    · simp only [streamLoop]
      rw [if_neg hraw]
      simp only [hev]
      rw [ih htail, List.filter_cons]
      simp [hraw]

/-- C6: with the stream open, the worker discards every empty line and
turns every non-empty line it reads into exactly one document — the
message is the replace-decoded line (the decode is total, so
undecodable byte sequences are replaced, never dropping the line or
crashing the worker), tagged with the worker's container id and name
and the static node identity — handed to `send_log` in stream order;
this holds for every stream in opensearch mode, and in local mode
whenever no sink write fails. -/
theorem worker_line_handling (mode : AgentMode) (cid name node : String)
    (evs : List LineEvent) (re : Option String)
    (h : mode = .opensearch ∨ ∀ ev ∈ evs, ev.sinkErr = none) :
    stream_logs mode cid name node ⟨true, evs, re⟩ =
      (evs.filter (fun ev => !ev.raw.isEmpty)).map
        (fun ev => mkDoc ev.ts (decodeLine ev.raw) cid name node) := by
  show (streamLoop mode cid name node evs).1 = _
  rw [streamLoop_no_failures mode cid name node evs h]

/-- Witness for C6: a line with an invalid byte sequence is forwarded
as one record with the replacement character substituted, and an empty
line is discarded. -/
theorem worker_line_handling_witness :
    stream_logs .opensearch "abc123" "web" "node1"
      ⟨true, [⟨[0xFF, 97], "t1", none⟩, ⟨[], "t2", none⟩], none⟩ =
      [mkDoc "t1" (String.mk [replacementChar, 'a']) "abc123" "web" "node1"] := by
  rw [worker_line_handling .opensearch "abc123" "web" "node1"
    [⟨[0xFF, 97], "t1", none⟩, ⟨[], "t2", none⟩] none (Or.inl rfl)]
  decide

/-- C8 counterexample: in local/debug mode the `print` in `send_log` is
not wrapped in any handler, so a sink write failure propagates into the
worker and ends it.  With two one-byte lines whose first record's write
fails, only the first document is handed over and the second line is
never forwarded; with no failure both records flow. -/
theorem sink_failure_kills_local_worker :
    stream_logs .localMode "c1" "web" "n"
      ⟨true, [⟨[97], "t1", some "broken pipe"⟩, ⟨[98], "t2", none⟩], none⟩ =
      [mkDoc "t1" "a" "c1" "web" "n"] ∧
    stream_logs .localMode "c1" "web" "n"
      ⟨true, [⟨[97], "t1", none⟩, ⟨[98], "t2", none⟩], none⟩ =
      [mkDoc "t1" "a" "c1" "web" "n", mkDoc "t2" "b" "c1" "web" "n"] :=
  ⟨by decide, by decide⟩

/-- In local mode, the loop forwards the error-free prefix, hands over
the failing record, and then aborts with the escaped exception. -/
theorem streamLoop_local_abort (cid name node : String) (ev : LineEvent)
    (post : List LineEvent) (e : String) (hev : ev.sinkErr = some e)
    (hraw : ev.raw.isEmpty = false) :
    ∀ pre : List LineEvent, (∀ p ∈ pre, p.sinkErr = none) →
      (streamLoop .localMode cid name node (pre ++ ev :: post)).1 =
        (pre.filter (fun p => !p.raw.isEmpty)).map
          (fun p => mkDoc p.ts (decodeLine p.raw) cid name node) ++
          [mkDoc ev.ts (decodeLine ev.raw) cid name node] := by
  intro pre
  induction pre with
  | nil =>
    intro _
    simp only [List.nil_append, streamLoop]
    rw [if_neg (by simp [hraw])]
    simp [send_log_raises, hev]
  | cons p ps ih =>
    intro hpre
    have hp : p.sinkErr = none := hpre p (List.mem_cons_self _ _)
    have hps : ∀ q ∈ ps, q.sinkErr = none := fun q hq => hpre q (List.mem_cons_of_mem _ hq)
    rw [List.cons_append]
    by_cases hpr : p.raw.isEmpty = true
    · simp only [streamLoop]
      rw [if_pos hpr, ih hps, List.filter_cons]
      simp [hpr]
    · simp only [streamLoop]
      rw [if_neg hpr]
      simp only [send_log_raises, hp]
      rw [List.filter_cons]
      simp only [hpr, Bool.not_false, if_true]
      rw [List.map_cons, List.cons_append]
      exact congrArg _ (ih hps)

/-- C8 amended: in opensearch (indexing) mode a sink write failure is
caught inside `send_log` — the record is dropped at the backend and the
worker's output is exactly what it would have been had no write failed,
so the worker continues reading and forwarding subsequent lines; in
local (debug) mode a standard-output write failure escapes `send_log`,
so the worker forwards the documents up to and including the failing
record and then ends, never reaching the rest of the stream. -/
theorem sink_failure_handling (cid name node : String) :
    (∀ (ok : Bool) (evs : List LineEvent) (re re' : Option String),
      stream_logs .opensearch cid name node ⟨ok, evs, re⟩ =
        stream_logs .opensearch cid name node
          ⟨ok, evs.map (fun ev => { ev with sinkErr := none }), re'⟩) ∧
    (∀ (pre : List LineEvent) (ev : LineEvent) (post : List LineEvent) (e : String)
        (re : Option String), (∀ p ∈ pre, p.sinkErr = none) → ev.sinkErr = some e →
      ev.raw.isEmpty = false →
      stream_logs .localMode cid name node ⟨true, pre ++ ev :: post, re⟩ =
        (pre.filter (fun p => !p.raw.isEmpty)).map
          (fun p => mkDoc p.ts (decodeLine p.raw) cid name node) ++
          [mkDoc ev.ts (decodeLine ev.raw) cid name node]) := by
  constructor
  · intro ok evs re re'
    cases ok
    · rfl
    · show (streamLoop .opensearch cid name node evs).1 =
        (streamLoop .opensearch cid name node
          (evs.map (fun ev => { ev with sinkErr := none }))).1
      rw [streamLoop_no_failures _ _ _ _ _ (Or.inl rfl),
        streamLoop_no_failures _ _ _ _ _ (Or.inl rfl)]
      rw [List.filter_map, List.map_map]
      rfl
  · intro pre ev post e re hpre hev hraw
    show (streamLoop .localMode cid name node (pre ++ ev :: post)).1 = _
    exact streamLoop_local_abort cid name node ev post e hev hraw pre hpre

/-! ## Supervisor step lemmas for reaping and restarting -/

theorem isAliveTok_iff {ws : List WorkerThread} {tok : Nat} :
    isAliveTok ws tok = true ↔ ∃ w ∈ ws, w.token = tok ∧ w.alive = true := by
  simp [isAliveTok, List.any_eq_true, Bool.and_eq_true]

theorem killThreads_isAliveTok_false {ds : List Nat} {s : AgentState} {tok : Nat}
    (h : isAliveTok s.spawned tok = false) :
    isAliveTok (killThreads ds s).spawned tok = false := by
  cases hk : isAliveTok (killThreads ds s).spawned tok
  · rfl
  · exfalso
    obtain ⟨w', hw', hwt', hwa'⟩ := isAliveTok_iff.1 hk
    simp only [killThreads, List.mem_map] at hw'
    obtain ⟨w, hw, heq⟩ := hw'
    subst heq
    by_cases hd : w.token ∈ ds
    · rw [if_pos hd] at hwa'
      cases hwa'
    · rw [if_neg hd] at hwt' hwa'
      have : isAliveTok s.spawned tok = true := isAliveTok_iff.2 ⟨w, hw, hwt', hwa'⟩
      rw [h] at this
      cases this

theorem startOne_nextToken_le (s : AgentState) (c : String × String) :
    s.nextToken ≤ (startOne s c).nextToken := by
  rw [startOne]
  by_cases h : c.1 ∈ s.active_streams
  · rw [if_pos h]
  · rw [if_neg h]
    exact Nat.le_succ _

theorem startOne_isAliveTok {s : AgentState} {tok : Nat} (h : tok < s.nextToken)
    (c : String × String) :
    isAliveTok (startOne s c).spawned tok = isAliveTok s.spawned tok := by
  rw [startOne]
  by_cases hc : c.1 ∈ s.active_streams
  · rw [if_pos hc]
  · rw [if_neg hc]
    simp only [isAliveTok, List.any_cons]
    have : (s.nextToken == tok) = false := by
      simp only [beq_eq_false_iff_ne, ne_eq]
      omega
    simp [this]

theorem startPhase_isAliveTok (cs : List (String × String)) :
    ∀ (s : AgentState) (tok : Nat), tok < s.nextToken →
      isAliveTok (startPhase cs s).spawned tok = isAliveTok s.spawned tok := by
  induction cs with
  | nil => intro s tok _; rfl
  | cons c cs ih =>
    intro s tok h
    have h2 : tok < (startOne s c).nextToken :=
      Nat.lt_of_lt_of_le h (startOne_nextToken_le s c)
    exact (ih (startOne s c) tok h2).trans (startOne_isAliveTok h c)

theorem startOne_threads_mem {s : AgentState} {p : String × Nat}
    (h : p ∈ s.threads) (c : String × String) : p ∈ (startOne s c).threads := by
  rw [startOne]
  by_cases hc : c.1 ∈ s.active_streams
  · rw [if_pos hc]
    exact h
  · rw [if_neg hc]
    exact List.mem_cons_of_mem _ h

theorem startPhase_threads_mem (cs : List (String × String)) :
    ∀ (s : AgentState) {p : String × Nat}, p ∈ s.threads →
      p ∈ (startPhase cs s).threads := by
  induction cs with
  | nil => intro s p h; exact h
  | cons c cs ih => intro s p h; exact ih (startOne s c) (startOne_threads_mem h c)

theorem mem_sweep_active {s : AgentState} {c : String} :
    c ∈ (sweep s).active_streams ↔ c ∈ s.active_streams ∧ c ∉ sweepDead s := by
  simp [sweep, List.mem_filter]

theorem mem_sweep_threads {s : AgentState} {p : String × Nat} :
    p ∈ (sweep s).threads ↔ p ∈ s.threads ∧ p.1 ∉ sweepDead s := by
  simp [sweep, List.mem_filter]

theorem killThreads_nil (s : AgentState) : killThreads [] s = s := by
  simp [killThreads]

/-- Once the supervisor holds an entry for a dead thread, the next loop
iteration removes the id from both collections, whatever it polls and
whatever else dies. -/
theorem step_removes_dead {s : AgentState} {cid : String} {tok : Nat}
    (hmem : (cid, tok) ∈ s.threads) (hdead : isAliveTok s.spawned tok = false)
    (htok : tok < s.nextToken) (dPoll : List Nat) (cs : List (String × String))
    (dStart dSleep : List Nat) :
    cid ∉ (step dPoll cs dStart dSleep s).active_streams ∧
    ∀ t, (cid, t) ∉ (step dPoll cs dStart dSleep s).threads := by
  have hmem3 : (cid, tok) ∈
      (killThreads dStart (startPhase cs (killThreads dPoll s))).threads :=
    startPhase_threads_mem cs (killThreads dPoll s) hmem
  have hd1 : isAliveTok (killThreads dPoll s).spawned tok = false :=
    killThreads_isAliveTok_false hdead
  have hd2 : isAliveTok (startPhase cs (killThreads dPoll s)).spawned tok = false := by
    rw [startPhase_isAliveTok cs (killThreads dPoll s) tok htok]
    exact hd1
  have hd3 : isAliveTok
      (killThreads dStart (startPhase cs (killThreads dPoll s))).spawned tok = false :=
    killThreads_isAliveTok_false hd2
  have hcdead : cid ∈ sweepDead (killThreads dStart (startPhase cs (killThreads dPoll s))) :=
    mem_sweepDead.2 ⟨tok, hmem3, hd3⟩
  constructor
  · intro hactive
    have hx : cid ∈ (sweep (killThreads dStart
        (startPhase cs (killThreads dPoll s)))).active_streams := hactive
    rw [mem_sweep_active] at hx
    exact hx.2 hcdead
  · intro t ht
    have hx : (cid, t) ∈ (sweep (killThreads dStart
        (startPhase cs (killThreads dPoll s)))).threads := ht
    rw [mem_sweep_threads] at hx
    exact hx.2 hcdead

/-- An id with no entry in `active_streams` gets a fresh, live worker
as soon as a poll reports it. -/
theorem step_restarts {s1 : AgentState} (hinv1 : Inv s1) {cid : String}
    (hc : cid ∉ s1.active_streams) (nm : String) :
    cid ∈ (step [] [(cid, nm)] [] [] s1).active_streams ∧
    ∃ w ∈ (step [] [(cid, nm)] [] [] s1).spawned, w.cid = cid ∧ w.alive = true := by
  have hstep : step [] [(cid, nm)] [] [] s1 = sweep (startOne s1 (cid, nm)) := by
    rw [step, killThreads_nil, killThreads_nil, killThreads_nil]
    rfl
  have hso : startOne s1 (cid, nm) =
      { nextToken := s1.nextToken + 1,
        spawned := ⟨s1.nextToken, cid, nm, true⟩ :: s1.spawned,
        active_streams := cid :: s1.active_streams,
        threads := (cid, s1.nextToken) :: s1.threads } := by
    rw [startOne, if_neg hc]
  have hnotdead : cid ∉ sweepDead (startOne s1 (cid, nm)) := by
    intro hd
    obtain ⟨t, ht, htdead⟩ := mem_sweepDead.1 hd
    rw [hso] at ht htdead
    rcases List.mem_cons.1 ht with heq | hmem
    · have ht' : t = s1.nextToken := congrArg Prod.snd heq
      subst ht'
      have : isAliveTok (⟨s1.nextToken, cid, nm, true⟩ :: s1.spawned) s1.nextToken = true :=
        isAliveTok_of_mem (List.mem_cons_self _ _) rfl
      rw [this] at htdead
      cases htdead
    · exact hc ((hinv1.activeIffKey cid).2 (List.mem_map_of_mem _ hmem))
  constructor
  · rw [hstep, mem_sweep_active]
    refine ⟨?_, hnotdead⟩
    rw [hso]
    exact List.mem_cons_self _ _
  · refine ⟨⟨s1.nextToken, cid, nm, true⟩, ?_, rfl, rfl⟩
    rw [hstep]
    show _ ∈ (startOne s1 (cid, nm)).spawned
    rw [hso]
    exact List.mem_cons_self _ _

/-- Witness for C8 amended: an indexing-mode stream with a failing
write produces the same output as the failure-free stream, while a
local-mode stream stops at the failing record. -/
theorem sink_failure_handling_witness :
    stream_logs .opensearch "c1" "w" "n" ⟨true, [⟨[97], "t", some "err"⟩], none⟩ =
      stream_logs .opensearch "c1" "w" "n" ⟨true, [⟨[97], "t", none⟩], none⟩ ∧
    stream_logs .localMode "c1" "w" "n"
      ⟨true, [⟨[99], "t0", none⟩, ⟨[97], "t", some "err"⟩, ⟨[98], "t2", none⟩], none⟩ =
      [mkDoc "t0" "c" "c1" "w" "n", mkDoc "t" "a" "c1" "w" "n"] := by
  constructor
  · exact (sink_failure_handling "c1" "w" "n").1 true [⟨[97], "t", some "err"⟩] none none
  · have h := (sink_failure_handling "c1" "w" "n").2 [⟨[99], "t0", none⟩]
      ⟨[97], "t", some "err"⟩ [⟨[98], "t2", none⟩] "err" none
      (by intro p hp; rcases List.mem_singleton.1 hp with rfl; rfl) rfl rfl
    exact h.trans (by decide)

/-- During one whole start phase, no worker is ever spawned for an id
that was already in `active_streams` when the phase began: every worker
of the resulting state carrying such an id was already spawned before. -/
theorem startPhase_no_second (cs : List (String × String)) :
    ∀ (s : AgentState) (c : String), c ∈ s.active_streams →
      ∀ w ∈ (startPhase cs s).spawned, w.cid = c → w ∈ s.spawned := by
  induction cs with
  | nil => intro s c _ w hw _; exact hw
  | cons a cs ih =>
    intro s c hc w hw hwc
    by_cases ha : a.1 ∈ s.active_streams
    · have hsame : startOne s a = s := by rw [startOne, if_pos ha]
      have hw2 : w ∈ (startPhase cs (startOne s a)).spawned := hw
      rw [hsame] at hw2
      exact ih s c hc w hw2 hwc
    · have hso : startOne s a =
          { nextToken := s.nextToken + 1,
            spawned := ⟨s.nextToken, a.1, a.2, true⟩ :: s.spawned,
            active_streams := a.1 :: s.active_streams,
            threads := (a.1, s.nextToken) :: s.threads } := by
        rw [startOne, if_neg ha]
      have hc' : c ∈ (startOne s a).active_streams := by
        rw [hso]
        exact List.mem_cons_of_mem _ hc
      have hw' := ih (startOne s a) c hc' w hw hwc
      rw [hso] at hw'
      rcases List.mem_cons.1 hw' with rfl | hmem
      · have hac : a.1 = c := hwc
        rw [hac] at ha
        exact absurd hc ha
      · exact hmem

/-- C3: in every reachable supervisor state there is at most one live
worker per container id; the start loop does nothing at all for an id
already present in `active_streams`, and a whole start phase never
spawns a worker for such an id (so a container seen in consecutive
polls with an unchanged id never receives a second worker while its
first is alive); and the sweep never removes an entry whose thread is
still alive — entries leave only after their worker has ended. -/
theorem at_most_one_live_worker {s : AgentState} (h : Reachable s) :
    (∀ w1 ∈ s.spawned, ∀ w2 ∈ s.spawned,
      w1.alive = true → w2.alive = true → w1.cid = w2.cid → w1 = w2) ∧
    (∀ c : String × String, c.1 ∈ s.active_streams → startOne s c = s) ∧
    (∀ (cs : List (String × String)) (c : String), c ∈ s.active_streams →
      ∀ w ∈ (startPhase cs s).spawned, w.cid = c → w ∈ s.spawned) ∧
    (∀ (c : String) (tok : Nat), (c, tok) ∈ s.threads →
      isAliveTok s.spawned tok = true → (c, tok) ∈ (sweep s).threads) := by
  have hinv := inv_of_reachable h
  refine ⟨?_, ?_, fun cs c hc w hw hwc => startPhase_no_second cs s c hc w hw hwc, ?_⟩
  · intro w1 h1 w2 h2 ha1 ha2 hcid
    have e1 := hinv.aliveTracked w1 h1 ha1
    have e2 := hinv.aliveTracked w2 h2 ha2
    rw [hcid] at e1
    exact tokens_inj hinv.tokensNodup h1 h2 (keys_inj hinv.keysNodup e1 e2)
  · intro c hc
    rw [startOne, if_pos hc]
  · intro c tok hmem halive
    rw [mem_sweep_threads]
    refine ⟨hmem, ?_⟩
    intro hd
    obtain ⟨t, ht, htdead⟩ := mem_sweepDead.1 hd
    have ht' : t = tok := keys_inj hinv.keysNodup ht hmem
    subst ht'
    rw [halive] at htdead
    cases htdead

/-- Witness for C3: the concrete two-poll run (container "abc123" in
both polls, "def456" added in the second) satisfies all three parts. -/
theorem at_most_one_live_worker_witness :
    (∀ w1 ∈ pollTwiceState.spawned, ∀ w2 ∈ pollTwiceState.spawned,
      w1.alive = true → w2.alive = true → w1.cid = w2.cid → w1 = w2) ∧
    (∀ c : String × String, c.1 ∈ pollTwiceState.active_streams →
      startOne pollTwiceState c = pollTwiceState) ∧
    (∀ (cs : List (String × String)) (c : String), c ∈ pollTwiceState.active_streams →
      ∀ w ∈ (startPhase cs pollTwiceState).spawned, w.cid = c →
        w ∈ pollTwiceState.spawned) ∧
    (∀ (c : String) (tok : Nat), (c, tok) ∈ pollTwiceState.threads →
      isAliveTok pollTwiceState.spawned tok = true →
      (c, tok) ∈ (sweep pollTwiceState).threads) :=
  at_most_one_live_worker
    (Reachable.next [] [("abc123", "web"), ("def456", "db")] [] []
      (Reachable.next [] [("abc123", "web")] [] [] Reachable.init))

/-- C7: every stream outcome ends the worker without an escaping
exception — `stream_logs` is a total function, and an open failure
forwards no document at all — and once a worker has ended, the next
iteration's sweep removes its id from both `active_streams` and
`threads` (whatever that iteration polls), after which the id is
eligible again: a further iteration that polls the same id starts a
fresh live worker for it. -/
theorem dead_worker_reaped {s : AgentState} (h : Reachable s)
    {cid : String} {tok : Nat} (hmem : (cid, tok) ∈ s.threads)
    (hdead : isAliveTok s.spawned tok = false) :
    (∀ (mode : AgentMode) (c n nd : String) (evs : List LineEvent) (re : Option String),
      stream_logs mode c n nd ⟨false, evs, re⟩ = []) ∧
    (∀ (dPoll : List Nat) (cs : List (String × String)) (dStart dSleep : List Nat),
      cid ∉ (step dPoll cs dStart dSleep s).active_streams ∧
      ∀ t, (cid, t) ∉ (step dPoll cs dStart dSleep s).threads) ∧
    (∀ (dPoll : List Nat) (cs : List (String × String)) (dStart dSleep : List Nat)
        (nm : String),
      cid ∈ (step [] [(cid, nm)] [] [] (step dPoll cs dStart dSleep s)).active_streams ∧
      ∃ w ∈ (step [] [(cid, nm)] [] [] (step dPoll cs dStart dSleep s)).spawned,
        w.cid = cid ∧ w.alive = true) := by
  have hinv := inv_of_reachable h
  obtain ⟨w, hw, hwt, hwc⟩ := hinv.threadsValid (cid, tok) hmem
  have hwt' : w.token = tok := hwt
  have htok : tok < s.nextToken := hwt' ▸ hinv.tokenBound w hw
  refine ⟨fun mode c n nd evs re => rfl, ?_, ?_⟩
  · intro dPoll cs dStart dSleep
    exact step_removes_dead hmem hdead htok dPoll cs dStart dSleep
  · intro dPoll cs dStart dSleep nm
    have h1 := step_removes_dead hmem hdead htok dPoll cs dStart dSleep
    have hinv1 : Inv (step dPoll cs dStart dSleep s) :=
      inv_step dPoll cs dStart dSleep hinv
    exact step_restarts hinv1 h1.1 nm

/-- Witness for C7: in the concrete run where the only worker dies
during the sleep, its dead entry is present, the next iteration (which
polls the same id) removes it, and the iteration after that starts a
fresh worker for the id. -/
theorem dead_worker_reaped_witness :
    ("c1", 0) ∈ deadState.threads ∧
    "c1" ∉ (step [] [("c1", "n1")] [] [] deadState).active_streams ∧
    "c1" ∈ (step [] [("c1", "n1")] [] []
      (step [] [("c1", "n1")] [] [] deadState)).active_streams := by
  have h := dead_worker_reaped
    (Reachable.next [] [("c1", "n1")] [] [0] Reachable.init)
    (by decide : ("c1", 0) ∈ deadState.threads)
    (by decide : isAliveTok deadState.spawned 0 = false)
  exact ⟨by decide, (h.2.1 [] [("c1", "n1")] [] []).1,
    (h.2.2 [] [("c1", "n1")] [] [] "n1").1⟩

/-! ## Sanity checks on the embedding -/

example : list_containers (.success [⟨some "abc123", none, some ["/web"]⟩]) =
    [("abc123", "/web")] := by decide
example : list_containers (.success [⟨some "", some "x", none⟩]) = [("x", "x")] := by decide
example : list_containers (.failure "boom") = [] := rfl
example : (send_log_local [("message", "hi"), ("node", "n1")]).2 =
    [("message", "hi"), ("node", "n1")] := by decide

-- 2024-03-07T00:00:00Z is epoch 1709769600; 2024-03-07T20:00:00Z is 1709841600.
example : strftime_Ymd 1709769600 0 = "2024.03.07" := by decide
example : strftime_Ymd 1709841600 0 = "2024.03.07" := by decide
example : strftime_Ymd 1709841600 28800 = "2024.03.08" := by decide

example : decodeLine [104, 105] = "hi" := by decide
-- An invalid start byte is replaced, the rest of the line survives.
example : decodeLine [0xFF, 97] = String.mk [replacementChar, 'a'] := by decide
-- b"\xe2\x28\xa1" decodes to "�(�" under CPython's replace handler.
example : decodeLine [0xE2, 0x28, 0xA1] =
    String.mk [replacementChar, '(', replacementChar] := by decide
example : decodeLine [0xC3, 0xA9] = "é" := by decide

example :
    stream_logs .opensearch "c1" "web" "n"
      ⟨true, [⟨[104, 105], "t1", none⟩, ⟨[], "t2", none⟩, ⟨[0xFF], "t3", none⟩], none⟩ =
    [mkDoc "t1" "hi" "c1" "web" "n",
     mkDoc "t3" (String.mk [replacementChar]) "c1" "web" "n"] := by decide

end OpensearchAgent
